import Mathlib

/-!
Verification development for the Slurm cluster resource aggregation and
availability-ranking engine (`slurm_generator.py`).

Strings are modelled as `List Char`; Python integers as `Int`; fallible
operations (`int(...)`, division) as `Option`-valued functions.  The pipeline
`get_detailed_partition_info` → `get_available_resources` is embedded as pure
functions over an explicit list of input lines (each line a `List Char`).
-/

/-- Shorthand for a modelled Python string. -/
abbrev Str := List Char

/-! ### String utilities -/

/-- Test whether `needle` is a prefix of `hay` (character-wise). -/
def listStarts : Str → Str → Bool
  | [], _ => true
  | _ :: _, [] => false
  | a :: as, b :: bs => (a = b) && listStarts as bs

/-- Python's substring test `needle in hay`. -/
def containsSub (needle : Str) : Str → Bool
  | [] => listStarts needle []
  | c :: cs => listStarts needle (c :: cs) || containsSub needle cs

/-- Whitespace test used by Python `str.split()` (space and tab suffice here). -/
def isWs (c : Char) : Bool := c = ' ' || c = '\t'

/-- Helper for `splitWs`: accumulates the current token (reversed). -/
def splitWsAux : Str → Str → List Str
  | [], acc => if acc.isEmpty then [] else [acc.reverse]
  | c :: cs, acc =>
    if isWs c then
      if acc.isEmpty then splitWsAux cs [] else acc.reverse :: splitWsAux cs []
    else splitWsAux cs (c :: acc)

/-- Python `line.split()`: split on whitespace runs, dropping empty tokens. -/
def splitWs (s : Str) : List Str := splitWsAux s []

/-- Helper for `splitSlash`: accumulates the current field (reversed). -/
def splitSlashAux : Str → Str → List Str
  | [], acc => [acc.reverse]
  | c :: cs, acc =>
    if c = '/' then acc.reverse :: splitSlashAux cs [] else splitSlashAux cs (c :: acc)

/-- Python `s.split('/')`: keeps empty fields, always returns at least one field. -/
def splitSlash (s : Str) : List Str := splitSlashAux s []

/-- Numeric value of a decimal digit character, `none` for non-digits. -/
def digitVal (c : Char) : Option Nat :=
  if '0' ≤ c ∧ c ≤ '9' then some (c.toNat - '0'.toNat) else none

/-- Parse a nonempty all-digit string to a natural number. -/
def parseDigits (cs : Str) : Option Nat :=
  if cs.isEmpty then none
  else cs.foldl (fun a c => a.bind fun n => (digitVal c).map fun d => 10 * n + d) (some 0)

/-- Model of Python `int(s)` on decimal strings: optional sign then digits;
anything else raises, modelled as `none`. -/
def pyInt (cs : Str) : Option Int :=
  match cs with
  | '-' :: rest => (parseDigits rest).map fun n => -(n : Int)
  | '+' :: rest => (parseDigits rest).map fun n => (n : Int)
  | _ => (parseDigits cs).map fun n => (n : Int)

/-! ### Accelerator catalog and capacity inference -/

/-- GPU memory mapping (in GB), in the declaration order of the source dict
(`a100, h200, v100, a5000, a5500, l40s, l40sx, 2080ti, rtx2080ti, a6000, a40,
rtx3090, rtx4090, titan`); Python 3.7+ dicts iterate in insertion order. -/
def GPU_MEMORY : List (Str × Int) :=
  [(['a', '1', '0', '0'], 40),
   (['h', '2', '0', '0'], 141),
   (['v', '1', '0', '0'], 16),
   (['a', '5', '0', '0', '0'], 24),
   (['a', '5', '5', '0', '0'], 24),
   (['l', '4', '0', 's'], 48),
   (['l', '4', '0', 's', 'x'], 48),
   (['2', '0', '8', '0', 't', 'i'], 11),
   (['r', 't', 'x', '2', '0', '8', '0', 't', 'i'], 11),
   (['a', '6', '0', '0', '0'], 48),
   (['a', '4', '0'], 48),
   (['r', 't', 'x', '3', '0', '9', '0'], 24),
   (['r', 't', 'x', '4', '0', '9', '0'], 24),
   (['t', 'i', 't', 'a', 'n'], 24)]

/-- Source `infer_gpu_memory`: lowercase the partition name, scan the catalog
in declaration order, return the memory of the first entry whose fragment is a
substring of the lowered name; `none` when no entry matches. -/
def infer_gpu_memory (partition_name : Str) : Option Int :=
  let partition_lower := partition_name.map Char.toLower
  (GPU_MEMORY.find? fun e => containsSub e.1 partition_lower).map (·.2)

/-! ### Progress bar builder -/

/-- Python true division, failing on a zero divisor (`ZeroDivisionError`). -/
def pyDiv (a b : Int) : Option ℚ :=
  if b = 0 then none else some ((a : ℚ) / (b : ℚ))

/-- Computed quantities of the HTML progress bar of `create_progress_bar`. -/
structure ProgressBar where
  percentage : ℚ
  available : Int
  bar_color : Str
  bg_color : Str
  deriving DecidableEq

/-- Hex color `#EF5350` (red bar). -/
def redBar : Str := ['#', 'E', 'F', '5', '3', '5', '0']

/-- Hex color `#FFCDD2` (red background). -/
def redBg : Str := ['#', 'F', 'F', 'C', 'D', 'D', '2']

/-- Hex color `#FFA726` (orange bar). -/
def orangeBar : Str := ['#', 'F', 'F', 'A', '7', '2', '6']

/-- Hex color `#FFE0B2` (orange background). -/
def orangeBg : Str := ['#', 'F', 'F', 'E', '0', 'B', '2']

/-- Hex color `#66BB6A` (green bar). -/
def greenBar : Str := ['#', '6', '6', 'B', 'B', '6', 'A']

/-- Hex color `#C8E6C9` (green background). -/
def greenBg : Str := ['#', 'C', '8', 'E', '6', 'C', '9']

/-- Source `create_progress_bar`: `percentage = 0` when `total == 0`, else
`(used / total) * 100` (a fallible division); `available = total - used`;
colors chosen from the percentage thresholds 90 / 70 / 40. -/
def create_progress_bar (used total : Int) : Option ProgressBar :=
  (if total = 0 then some (0 : ℚ) else (pyDiv used total).map (· * 100)).map
    fun percentage =>
      let available := total - used
      if (90 : ℚ) ≤ percentage then
        { percentage := percentage, available := available,
          bar_color := redBar, bg_color := redBg }
      else if (70 : ℚ) ≤ percentage then
        { percentage := percentage, available := available,
          bar_color := orangeBar, bg_color := orangeBg }
      else if (40 : ℚ) ≤ percentage then
        { percentage := percentage, available := available,
          bar_color := orangeBar, bg_color := orangeBg }
      else
        { percentage := percentage, available := available,
          bar_color := greenBar, bg_color := greenBg }

/-! ### Row parser (`get_detailed_partition_info`, per-line part) -/

/-- Parsed fields of one report line (the source's local variables for a row). -/
structure PartitionRow where
  name : Str
  allocated_nodes : Int
  idle_nodes : Int
  other_nodes : Int
  total_nodes : Int
  allocated_cpus : Int
  idle_cpus : Int
  other_cpus : Int
  total_cpus : Int
  nodes_count : Int
  timelimit : Str
  state : Str
  nodelist : Str
  deriving DecidableEq

/-- Outcome of processing one line inside the source's row loop: a parsed row,
a silent skip (`continue` / failed field-count guard), or a raised exception
(`int(...)` on a non-numeric field) that aborts the whole batch. -/
inductive RowResult where
  | ok (r : PartitionRow)
  | skip
  | err
  deriving DecidableEq

/-- Per-line body of the source's row loop: require at least 7
whitespace-separated fields, strip `*` from the partition name, require both
ratio fields to split into exactly four parts, convert the eight ratio parts
and the declared node count with `int` (a failure there raises). -/
def parseToks : List Str → RowResult
  | p0 :: p1 :: p2 :: p3 :: p4 :: p5 :: p6 :: restTail =>
    let partition_name := p0.filter fun c => c ≠ '*'
    match splitSlash p1 with
    | [n0, n1, n2, n3] =>
      match pyInt n0, pyInt n1, pyInt n2, pyInt n3 with
      | some allocated_nodes, some idle_nodes, some other_nodes, some total_nodes =>
        (match splitSlash p2 with
         | [c0, c1, c2, c3] =>
           match pyInt c0, pyInt c1, pyInt c2, pyInt c3 with
           | some allocated_cpus, some idle_cpus, some other_cpus, some total_cpus =>
             (match pyInt p3 with
              | some nodes_count =>
                .ok { name := partition_name
                      allocated_nodes := allocated_nodes
                      idle_nodes := idle_nodes
                      other_nodes := other_nodes
                      total_nodes := total_nodes
                      allocated_cpus := allocated_cpus
                      idle_cpus := idle_cpus
                      other_cpus := other_cpus
                      total_cpus := total_cpus
                      nodes_count := nodes_count
                      timelimit := p4
                      state := p5
                      nodelist := List.intercalate [' '] (p6 :: restTail) }
              | none => .err)
           | _, _, _, _ => .err
         | _ => .skip)
      | _, _, _, _ => .err
    | _ => .skip
  | _ => .skip

/-- Per-line step of the source's row loop: tokenize, then parse the fields. -/
def parseLine (line : Str) : RowResult := parseToks (splitWs line)

/-! ### Partition aggregator -/

/-- Aggregate record per distinct partition name (the source's dict value). -/
structure PartitionAgg where
  name : Str
  allocated_nodes : Int
  idle_nodes : Int
  other_nodes : Int
  total_nodes : Int
  allocated_cpus : Int
  idle_cpus : Int
  other_cpus : Int
  total_cpus : Int
  timelimit : Str
  states : List Str
  nodelists : List Str
  deriving DecidableEq

/-- Fresh aggregate entry: zero counters, the row's time limit, empty lists
(the source's initial dict literal). -/
def initAgg (r : PartitionRow) : PartitionAgg :=
  { name := r.name
    allocated_nodes := 0, idle_nodes := 0, other_nodes := 0, total_nodes := 0
    allocated_cpus := 0, idle_cpus := 0, other_cpus := 0, total_cpus := 0
    timelimit := r.timelimit, states := [], nodelists := [] }

/-- Unconditional accumulation step of the source (the `+=` and `append` lines). -/
def bump (a : PartitionAgg) (r : PartitionRow) : PartitionAgg :=
  { a with
    allocated_nodes := a.allocated_nodes + r.allocated_nodes
    idle_nodes := a.idle_nodes + r.idle_nodes
    other_nodes := a.other_nodes + r.other_nodes
    total_nodes := a.total_nodes + r.total_nodes
    allocated_cpus := a.allocated_cpus + r.allocated_cpus
    idle_cpus := a.idle_cpus + r.idle_cpus
    other_cpus := a.other_cpus + r.other_cpus
    total_cpus := a.total_cpus + r.total_cpus
    states := a.states ++ [r.state]
    nodelists := a.nodelists ++ [r.nodelist] }

/-- Insertion-ordered dict update: create the entry (then accumulate) when the
partition name is new, else accumulate in place. -/
def updateAgg : List PartitionAgg → PartitionRow → List PartitionAgg
  | [], r => [bump (initAgg r) r]
  | a :: as, r => if a.name = r.name then bump a r :: as else a :: updateAgg as r

/-- Iterate the row loop over the non-header lines, threading the dict;
a raised exception (`RowResult.err`) aborts the whole batch. -/
def processRows : List Str → List PartitionAgg → Option (List PartitionAgg)
  | [], m => some m
  | l :: ls, m =>
    match parseLine l with
    | .err => none
    | .skip => processRows ls m
    | .ok r => processRows ls (updateAgg m r)

/-- Error outcomes of `get_detailed_partition_info` (its `return None, msg`
sites): command failure, timeout, too-short output, caught exception. -/
inductive InfoError where
  | commandError
  | timedOut
  | noOutput
  | exn
  deriving DecidableEq

deriving instance DecidableEq for Except

/-- Source `get_detailed_partition_info` from the fetched lines onward:
reject outputs of fewer than two lines (`No sinfo output`), then run the row
loop over `lines[1:]`; any raised exception yields the generic error return. -/
def get_detailed_partition_info (lines : List Str) : Except InfoError (List PartitionAgg) :=
  if lines.length < 2 then .error .noOutput
  else
    match processRows lines.tail [] with
    | none => .error .exn
    | some m => .ok m


/-! ### Availability ranker and filter (`get_available_resources`) -/

/-- Source line computing robust availability:
`available_nodes = max(0, total_nodes - allocated_nodes - other_nodes)`. -/
def available_nodes (p : PartitionAgg) : Int :=
  max 0 (p.total_nodes - p.allocated_nodes - p.other_nodes)

/-- Source `availability_score = available_nodes if total_nodes > 0 else 0`. -/
def availability_score (p : PartitionAgg) : Int :=
  if 0 < p.total_nodes then available_nodes p else 0

/-- Composite sort key `(availability_score, idle_nodes)` of the in-group sort. -/
def sortKey (p : PartitionAgg) : Int × Int := (availability_score p, p.idle_nodes)

/-- Descending stable order on keys: `x` may precede `y` when `x`'s key is
lexicographically greater than or equal to `y`'s. -/
def lexGe (x y : Int × Int) : Prop := y.1 < x.1 ∨ (x.1 = y.1 ∧ y.2 ≤ x.2)

instance decLexGe (x y : Int × Int) : Decidable (lexGe x y) := by
  unfold lexGe; infer_instance

variable {α : Type}

/-- Insert one element into a key-descending list, after every strictly greater
key and after earlier-input elements of equal key. -/
def insertDescBy (k : α → Int × Int) (x : α) : List α → List α
  | [] => [x]
  | y :: ys => if lexGe (k x) (k y) then x :: y :: ys else y :: insertDescBy k x ys

/-- Model of Python `list.sort(key=k, reverse=True)`: the stable descending
sort by `k` (insertion-sort formulation). -/
def sortDescBy (k : α → Int × Int) : List α → List α
  | [] => []
  | x :: xs => insertDescBy k x (sortDescBy k xs)

/-- Partitions appended to `gpu_partitions[m]` in input order (the catalog has
no zero capacity value, so Python's `if gpu_mem:` truthiness test coincides
with the `some`/`none` split of the inferred capacity). -/
def gpuBucket (m : Int) (parts : List PartitionAgg) : List PartitionAgg :=
  parts.filter fun p => decide (infer_gpu_memory p.name = some m)

/-- Partitions appended to `cpu_partitions` (no inferred accelerator class). -/
def cpuBucket (parts : List PartitionAgg) : List PartitionAgg :=
  parts.filter fun p => decide (infer_gpu_memory p.name = none)

/-- Distinct inferred per-unit capacity values (the dict keys). -/
def gpuKeys (parts : List PartitionAgg) : List Int :=
  (parts.filterMap fun p => infer_gpu_memory p.name).dedup

/-- Source `sorted(gpu_partitions.keys(), reverse=True)`. -/
def sortedKeysDesc (parts : List PartitionAgg) : List Int :=
  sortDescBy (fun m => (m, 0)) (gpuKeys parts)

/-- Per-partition threshold filter of the source: keep a partition when the
threshold is zero or `gpu_mem * (total_nodes - allocated_nodes)` meets it. -/
def minFilter (min_gpu_memory : Nat) (gpu_mem : Int) (l : List PartitionAgg) :
    List PartitionAgg :=
  l.filter fun p =>
    decide (min_gpu_memory = 0) ||
    decide ((min_gpu_memory : Int) ≤ gpu_mem * (p.total_nodes - p.allocated_nodes))

/-- Displayed partitions of one capacity group: sort the bucket stably by the
composite key, then apply the per-partition threshold filter. -/
def filteredGroup (min_gpu_memory : Nat) (m : Int) (parts : List PartitionAgg) :
    List PartitionAgg :=
  minFilter min_gpu_memory m (sortDescBy sortKey (gpuBucket m parts))

/-- Rendered accelerator groups in output order: capacity values descending,
groups whose filter leaves nothing are dropped (`continue`). -/
def gpuSections (min_gpu_memory : Nat) (parts : List PartitionAgg) :
    List (Int × List PartitionAgg) :=
  (sortedKeysDesc parts).filterMap fun m =>
    if (filteredGroup min_gpu_memory m parts).isEmpty then none
    else some (m, filteredGroup min_gpu_memory m parts)

/-- One rendered section of the resource summary. -/
inductive RSection where
  | gpu (gpu_mem : Int) (shown : List PartitionAgg)
  | cpu (shown : List PartitionAgg)
  deriving DecidableEq

/-- Test for the compute-only section. -/
def isCpuSection : RSection → Bool
  | .gpu _ _ => false
  | .cpu _ => true

/-- Section order of `get_available_resources`: all accelerator groups first,
then (when nonempty) the compute-only bucket sorted by the same key. -/
def renderSections (min_gpu_memory : Nat) (parts : List PartitionAgg) :
    List RSection :=
  ((gpuSections min_gpu_memory parts).map fun ml => RSection.gpu ml.1 ml.2) ++
  (if (cpuBucket parts).isEmpty then []
   else [RSection.cpu (sortDescBy sortKey (cpuBucket parts))])

/-! ### Counter projections (for aggregation algebra) -/

/-- Tuple of the eight numeric counters. -/
abbrev Ctr := Int × Int × Int × Int × Int × Int × Int × Int

/-- Counters carried by one parsed row. -/
def rowCtr (r : PartitionRow) : Ctr :=
  (r.allocated_nodes, r.idle_nodes, r.other_nodes, r.total_nodes,
   r.allocated_cpus, r.idle_cpus, r.other_cpus, r.total_cpus)

/-- Counters carried by one aggregate. -/
def aggCtr (a : PartitionAgg) : Ctr :=
  (a.allocated_nodes, a.idle_nodes, a.other_nodes, a.total_nodes,
   a.allocated_cpus, a.idle_cpus, a.other_cpus, a.total_cpus)

/-- Aggregation of a row sequence starting from the empty dict. -/
def aggRows (rs : List PartitionRow) : List PartitionAgg := rs.foldl updateAgg []

/-- Numeric counters recorded for a partition name, if present. -/
def lookCtr (name : Str) (m : List PartitionAgg) : Option Ctr :=
  (m.find? fun a => decide (a.name = name)).map aggCtr

/-- Componentwise sum of the counters of the rows carrying a given name. -/
def ctrSum (name : Str) (rs : List PartitionRow) : Ctr :=
  ((rs.filter fun r => decide (r.name = name)).map rowCtr).sum

/-- Rows that parse successfully, in order. -/
def okRows (ls : List Str) : List PartitionRow :=
  ls.filterMap fun l =>
    match parseLine l with
    | .ok r => some r
    | _ => none


/-! ### Derived counting and pruned-catalog definitions -/

/-- Number of partitions shown across all rendered accelerator groups. -/
def shownCount (min_gpu_memory : Nat) (parts : List PartitionAgg) : Nat :=
  ((gpuSections min_gpu_memory parts).map fun ml => ml.2.length).sum

/-- Catalog with the entries `l40sx` and `rtx2080ti` removed, in the remaining
declaration order (stated by the claim under scrutiny). -/
def GPU_MEMORY_pruned : List (Str × Int) :=
  [(['a', '1', '0', '0'], 40),
   (['h', '2', '0', '0'], 141),
   (['v', '1', '0', '0'], 16),
   (['a', '5', '0', '0', '0'], 24),
   (['a', '5', '5', '0', '0'], 24),
   (['l', '4', '0', 's'], 48),
   (['2', '0', '8', '0', 't', 'i'], 11),
   (['a', '6', '0', '0', '0'], 48),
   (['a', '4', '0'], 48),
   (['r', 't', 'x', '3', '0', '9', '0'], 24),
   (['r', 't', 'x', '4', '0', '9', '0'], 24),
   (['t', 'i', 't', 'a', 'n'], 24)]

/-- Same first-match lookup as `infer_gpu_memory`, over the pruned catalog
(stated by the claim under scrutiny). -/
def infer_gpu_memory_pruned (partition_name : Str) : Option Int :=
  let partition_lower := partition_name.map Char.toLower
  (GPU_MEMORY_pruned.find? fun e => containsSub e.1 partition_lower).map (·.2)

/-! ### Concrete inputs used by counterexamples, examples and witnesses -/

/-- Short header line (always skipped by the row loop). -/
def hdrLine : Str := ['P']

/-- Report line whose node-ratio field splits into four parts but contains the
non-integer part `x`: `q 1/2/x/4 1/1/1/3 3 t s n`. -/
def lineBadInt : Str :=
  ['q', ' ', '1', '/', '2', '/', 'x', '/', '4', ' ',
   '1', '/', '1', '/', '1', '/', '3', ' ', '3', ' ', 't', ' ', 's', ' ', 'n']

/-- Well-formed report line `a100 1/0/0/1 2/2/0/4 1 t idle n1`. -/
def lineGoodC2 : Str :=
  ['a', '1', '0', '0', ' ', '1', '/', '0', '/', '0', '/', '1', ' ',
   '2', '/', '2', '/', '0', '/', '4', ' ', '1', ' ', 't', ' ',
   'i', 'd', 'l', 'e', ' ', 'n', '1']

/-- Row parsed from `lineGoodC2`. -/
def rowGoodC2 : PartitionRow :=
  { name := ['a', '1', '0', '0']
    allocated_nodes := 1, idle_nodes := 0, other_nodes := 0, total_nodes := 1
    allocated_cpus := 2, idle_cpus := 2, other_cpus := 0, total_cpus := 4
    nodes_count := 1, timelimit := ['t'], state := ['i', 'd', 'l', 'e']
    nodelist := ['n', '1'] }

/-- Report line whose node-ratio field has only three parts (the spec's
canonical malformed row): `q2 3/1/0 1/1/1/3 3 t s n`. -/
def lineBad3 : Str :=
  ['q', '2', ' ', '3', '/', '1', '/', '0', ' ',
   '1', '/', '1', '/', '1', '/', '3', ' ', '3', ' ', 't', ' ', 's', ' ', 'n']

/-- Report line violating both state-counter invariants:
`inv 1/1/1/5 2/2/2/9 5 t s n` (1+1+1 is not 5, 2+2+2 is not 9). -/
def lineInv : Str :=
  ['i', 'n', 'v', ' ', '1', '/', '1', '/', '1', '/', '5', ' ',
   '2', '/', '2', '/', '2', '/', '9', ' ', '5', ' ', 't', ' ', 's', ' ', 'n']

/-- Row parsed from `lineInv`. -/
def rowInv : PartitionRow :=
  { name := ['i', 'n', 'v']
    allocated_nodes := 1, idle_nodes := 1, other_nodes := 1, total_nodes := 5
    allocated_cpus := 2, idle_cpus := 2, other_cpus := 2, total_cpus := 9
    nodes_count := 5, timelimit := ['t'], state := ['s'], nodelist := ['n'] }

/-- Aggregate built from the single row `rowInv`. -/
def aggInv : PartitionAgg :=
  { name := ['i', 'n', 'v']
    allocated_nodes := 1, idle_nodes := 1, other_nodes := 1, total_nodes := 5
    allocated_cpus := 2, idle_cpus := 2, other_cpus := 2, total_cpus := 9
    timelimit := ['t'], states := [['s']], nodelists := [['n']] }

/-- First example row for partition `gpu-a100-1`, node ratio 2/1/0/3. -/
def exRow1 : PartitionRow :=
  { name := ['g', 'p', 'u', '-', 'a', '1', '0', '0', '-', '1']
    allocated_nodes := 2, idle_nodes := 1, other_nodes := 0, total_nodes := 3
    allocated_cpus := 4, idle_cpus := 4, other_cpus := 0, total_cpus := 8
    nodes_count := 3, timelimit := ['t'], state := ['m', 'i', 'x']
    nodelist := ['n', '1'] }

/-- Second example row for partition `gpu-a100-1`, node ratio 1/0/0/1. -/
def exRow2 : PartitionRow :=
  { name := ['g', 'p', 'u', '-', 'a', '1', '0', '0', '-', '1']
    allocated_nodes := 1, idle_nodes := 0, other_nodes := 0, total_nodes := 1
    allocated_cpus := 1, idle_cpus := 0, other_cpus := 0, total_cpus := 1
    nodes_count := 1, timelimit := ['t'], state := ['i', 'd', 'l', 'e']
    nodelist := ['n', '2'] }

/-- Aggregate of `exRow1` and `exRow2`. -/
def exAgg : PartitionAgg :=
  { name := ['g', 'p', 'u', '-', 'a', '1', '0', '0', '-', '1']
    allocated_nodes := 3, idle_nodes := 1, other_nodes := 0, total_nodes := 4
    allocated_cpus := 5, idle_cpus := 4, other_cpus := 0, total_cpus := 9
    timelimit := ['t'], states := [['m', 'i', 'x'], ['i', 'd', 'l', 'e']]
    nodelists := [['n', '1'], ['n', '2']] }

/-- Aggregate for partition `a100x` (inferred class `a100`, 40 GB per unit)
with 2 nodes, none allocated, both in the `other` state. -/
def cexC1 : PartitionAgg :=
  { name := ['a', '1', '0', '0', 'x']
    allocated_nodes := 0, idle_nodes := 0, other_nodes := 2, total_nodes := 2
    allocated_cpus := 0, idle_cpus := 0, other_cpus := 0, total_cpus := 0
    timelimit := ['t'], states := [], nodelists := [] }

/-- Aggregate for partition `a5000q` (inferred class `a5000`, 24 GB per unit)
with 2 available nodes: total available capacity 48. -/
def wA5000 : PartitionAgg :=
  { name := ['a', '5', '0', '0', '0', 'q']
    allocated_nodes := 0, idle_nodes := 2, other_nodes := 0, total_nodes := 2
    allocated_cpus := 0, idle_cpus := 8, other_cpus := 0, total_cpus := 8
    timelimit := ['t'], states := [], nodelists := [] }

/-- Compute-only aggregate (name `standard` matches no catalog entry). -/
def wCpu : PartitionAgg :=
  { name := ['s', 't', 'a', 'n', 'd', 'a', 'r', 'd']
    allocated_nodes := 1, idle_nodes := 3, other_nodes := 0, total_nodes := 4
    allocated_cpus := 4, idle_cpus := 12, other_cpus := 0, total_cpus := 16
    timelimit := ['t'], states := [], nodelists := [] }

/-! ### Properties of the stable descending sort -/

theorem lexGe_refl (x : Int × Int) : lexGe x x := Or.inr ⟨rfl, le_refl _⟩

theorem lexGe_total (x y : Int × Int) : lexGe x y ∨ lexGe y x := by
  unfold lexGe; omega

theorem lexGe_trans {x y z : Int × Int} (h1 : lexGe x y) (h2 : lexGe y z) : lexGe x z := by
  unfold lexGe at *; omega

theorem perm_insertDescBy {α : Type} (k : α → Int × Int) (x : α) (l : List α) :
    (insertDescBy k x l).Perm (x :: l) := by
  induction l with
  | nil => simp [insertDescBy]
  | cons y ys ih =>
    by_cases h : lexGe (k x) (k y)
    · simp [insertDescBy, h]
    · simp only [insertDescBy, if_neg h]
      exact (ih.cons y).trans (List.Perm.swap x y ys)

theorem perm_sortDescBy {α : Type} (k : α → Int × Int) (l : List α) :
    (sortDescBy k l).Perm l := by
  induction l with
  | nil => simp [sortDescBy]
  | cons x xs ih =>
    exact (perm_insertDescBy k x (sortDescBy k xs)).trans (ih.cons x)

theorem pairwise_insertDescBy {α : Type} (k : α → Int × Int) (x : α) {l : List α}
    (h : l.Pairwise fun a b => lexGe (k a) (k b)) :
    (insertDescBy k x l).Pairwise fun a b => lexGe (k a) (k b) := by
  induction l with
  | nil => simp [insertDescBy]
  | cons y ys ih =>
    rcases List.pairwise_cons.mp h with ⟨hy, hys⟩
    by_cases hxy : lexGe (k x) (k y)
    · rw [insertDescBy, if_pos hxy]
      refine List.pairwise_cons.mpr ⟨?_, h⟩
      intro b hb
      rcases List.mem_cons.mp hb with rfl | hb
      · exact hxy
      · exact lexGe_trans hxy (hy _ hb)
    · rw [insertDescBy, if_neg hxy]
      refine List.pairwise_cons.mpr ⟨?_, ih hys⟩
      intro b hb
      have hmem := (perm_insertDescBy k x ys).mem_iff.mp hb
      rcases List.mem_cons.mp hmem with rfl | hbys
      · rcases lexGe_total (k b) (k y) with h1 | h1
        · exact absurd h1 hxy
        · exact h1
      · exact hy _ hbys

theorem pairwise_sortDescBy {α : Type} (k : α → Int × Int) (l : List α) :
    (sortDescBy k l).Pairwise fun a b => lexGe (k a) (k b) := by
  induction l with
  | nil => simp [sortDescBy]
  | cons x xs ih => exact pairwise_insertDescBy k x ih

theorem filter_insertDescBy {α : Type} (k : α → Int × Int) (x : α) (l : List α) (c : Int × Int) :
    ((insertDescBy k x l).filter fun a => decide (k a = c)) =
      if k x = c then x :: (l.filter fun a => decide (k a = c))
      else l.filter fun a => decide (k a = c) := by
  induction l with
  | nil => by_cases h : k x = c <;> simp [insertDescBy, List.filter, h]
  | cons y ys ih =>
    by_cases hxy : lexGe (k x) (k y)
    · rw [insertDescBy, if_pos hxy]
      by_cases h : k x = c <;> simp [List.filter_cons, h]
    · have hyne : ¬ (k y = c ∧ k x = c) := by
        rintro ⟨h1, h2⟩
        exact hxy (h2 ▸ h1 ▸ lexGe_refl _)
      simp only [insertDescBy, if_neg hxy, List.filter_cons, ih]
      by_cases h1 : k y = c
      · have h2 : ¬ k x = c := fun h2 => hyne ⟨h1, h2⟩
        simp [h1, h2]
      · simp [h1]

theorem filter_sortDescBy {α : Type} (k : α → Int × Int) (l : List α) (c : Int × Int) :
    ((sortDescBy k l).filter fun a => decide (k a = c)) =
      l.filter fun a => decide (k a = c) := by
  induction l with
  | nil => simp [sortDescBy]
  | cons x xs ih =>
    rw [sortDescBy, filter_insertDescBy, List.filter_cons, ih]
    by_cases h : k x = c <;> simp [h]

/-! ### Aggregation algebra -/

theorem aggCtr_bump (a : PartitionAgg) (r : PartitionRow) :
    aggCtr (bump a r) = aggCtr a + rowCtr r := rfl

theorem aggCtr_init_bump (r : PartitionRow) :
    aggCtr (bump (initAgg r) r) = rowCtr r := by
  simp [aggCtr, bump, initAgg, rowCtr, Prod.ext_iff]

theorem name_bump (a : PartitionAgg) (r : PartitionRow) : (bump a r).name = a.name := rfl

theorem name_initAgg (r : PartitionRow) : (initAgg r).name = r.name := rfl

theorem lookCtr_nil (name : Str) : lookCtr name [] = none := rfl

theorem lookCtr_updateAgg (m : List PartitionAgg) (r : PartitionRow) (name : Str) :
    lookCtr name (updateAgg m r) =
      if r.name = name then
        match lookCtr name m with
        | some c => some (c + rowCtr r)
        | none => some (rowCtr r)
      else lookCtr name m := by
  induction m with
  | nil =>
    by_cases h : r.name = name
    · simp [updateAgg, lookCtr, List.find?, name_bump, name_initAgg, h, aggCtr_init_bump]
    · simp [updateAgg, lookCtr, List.find?, name_bump, name_initAgg, h]
  | cons a as ih =>
    by_cases ha : a.name = r.name
    · rw [updateAgg, if_pos ha]
      by_cases h : r.name = name
      · have han : a.name = name := ha.trans h
        simp [lookCtr, List.find?, name_bump, han, h, aggCtr_bump]
      · have han : ¬ a.name = name := fun hc => h (ha ▸ hc)
        simp [lookCtr, List.find?, name_bump, han, h]
  -- second bullet of the outer case
    · rw [updateAgg, if_neg ha]
      by_cases han : a.name = name
      · have h : ¬ r.name = name := fun hc => ha (han ▸ hc.symm ▸ rfl)
        simp [lookCtr, List.find?, han, h]
      · simp only [lookCtr, List.find?] at *
        simp [han, ih]

theorem lookCtr_foldl (rs : List PartitionRow) (m : List PartitionAgg) (name : Str) :
    lookCtr name (rs.foldl updateAgg m) =
      match lookCtr name m with
      | some c => some (c + ctrSum name rs)
      | none =>
        if rs.any fun r => decide (r.name = name) then some (ctrSum name rs)
        else none := by
  induction rs generalizing m with
  | nil =>
    cases hm : lookCtr name m <;> simp [hm, ctrSum]
  | cons r rs ih =>
    rw [List.foldl_cons, ih, lookCtr_updateAgg]
    by_cases h : r.name = name
    · have hsum : ctrSum name (r :: rs) = rowCtr r + ctrSum name rs := by
        simp [ctrSum, List.filter_cons, h]
      cases hm : lookCtr name m
      · simp [h, hm, hsum, List.any_cons]
      · simp [h, hm, hsum, add_assoc]
    · have hsum : ctrSum name (r :: rs) = ctrSum name rs := by
        simp [ctrSum, List.filter_cons, h]
      cases hm : lookCtr name m <;> simp [h, hm, hsum, List.any_cons]

theorem any_eq_of_perm {rs1 rs2 : List PartitionRow} (h : rs1.Perm rs2)
    (p : PartitionRow → Bool) : rs1.any p = rs2.any p := by
  cases h1 : rs1.any p <;> cases h2 : rs2.any p <;> try rfl
  · rw [List.any_eq_false] at h1
    rw [List.any_eq_true] at h2
    rcases h2 with ⟨r, hr, hp⟩
    exact absurd hp (h1 r (h.mem_iff.mpr hr))
  · rw [List.any_eq_false] at h2
    rw [List.any_eq_true] at h1
    rcases h1 with ⟨r, hr, hp⟩
    exact absurd hp (h2 r (h.mem_iff.mp hr))

theorem ctrSum_eq_of_perm {rs1 rs2 : List PartitionRow} (h : rs1.Perm rs2)
    (name : Str) : ctrSum name rs1 = ctrSum name rs2 :=
  ((h.filter _).map rowCtr).sum_eq

theorem processRows_eq_okRows (ls : List Str) (m : List PartitionAgg)
    (h : ∀ l ∈ ls, parseLine l ≠ .err) :
    processRows ls m = some ((okRows ls).foldl updateAgg m) := by
  induction ls generalizing m with
  | nil => simp [processRows, okRows]
  | cons l ls ih =>
    have hl := h l (List.mem_cons_self l ls)
    have hrest : ∀ l2 ∈ ls, parseLine l2 ≠ .err := fun l2 h2 => h l2 (List.mem_cons_of_mem l h2)
    cases hpl : parseLine l with
    | err => exact absurd hpl hl
    | skip =>
      rw [processRows, hpl]
      rw [okRows, List.filterMap_cons, hpl]
      exact ih m hrest
    | ok r =>
      rw [processRows, hpl]
      rw [okRows, List.filterMap_cons, hpl]
      simp only [List.foldl_cons]
      exact ih (updateAgg m r) hrest

/-- Claim C10: on every pair of non-negative integer inputs the progress-bar
builder succeeds (never raises): with a zero total it reports a percentage of
0 without dividing, and otherwise it reports used / total * 100. -/
theorem C10_progress_bar_total (used total : Nat) :
    ∃ b : ProgressBar, create_progress_bar (used : Int) (total : Int) = some b ∧
      b.percentage = (if total = 0 then 0 else (used : ℚ) / (total : ℚ) * 100) ∧
      b.available = (total : Int) - (used : Int) := by
  by_cases h : total = 0
  · subst h
    unfold create_progress_bar
    simp only [Int.natCast_zero, if_pos rfl, Option.map_some]
    refine ⟨_, rfl, ?_, ?_⟩ <;>
      simp [apply_ite ProgressBar.percentage, apply_ite ProgressBar.available]
  · have hz : (total : Int) ≠ 0 := by exact_mod_cast h
    unfold create_progress_bar pyDiv
    rw [if_neg hz, if_neg hz]
    simp only [Option.map_some]
    refine ⟨_, rfl, ?_, ?_⟩ <;>
      simp only [apply_ite ProgressBar.percentage, apply_ite ProgressBar.available,
        ite_self]
    · rw [if_neg h]
      push_cast
      ring

/-- Claim C7: aggregation is order-invariant on the numeric counters — for any
permutation of the input rows every partition name receives identical sums of
the four node counters and the four CPU counters — and two rows for one
partition with node ratios 2/1/0/3 and 1/0/0/1 aggregate to total 4,
allocated 3, idle 1, other 0, hence one available unit and a total available
capacity of 40 under the 40-unit class inferred from the name. -/
theorem C7_aggregation_order_invariant :
    (∀ rs1 rs2 : List PartitionRow, rs1.Perm rs2 →
      ∀ name : Str, lookCtr name (aggRows rs1) = lookCtr name (aggRows rs2)) ∧
    (aggRows [exRow1, exRow2] = [exAgg] ∧ exAgg.total_nodes = 4 ∧
      exAgg.allocated_nodes = 3 ∧ exAgg.idle_nodes = 1 ∧ exAgg.other_nodes = 0 ∧
      available_nodes exAgg = 1 ∧ infer_gpu_memory exAgg.name = some 40 ∧
      40 * available_nodes exAgg = 40) := by
  constructor
  · intro rs1 rs2 hperm name
    rw [aggRows, aggRows, lookCtr_foldl, lookCtr_foldl, lookCtr_nil]
    rw [any_eq_of_perm hperm, ctrSum_eq_of_perm hperm]
  · decide

/-- Witness for C7: the two example rows, swapped, yield the same counters for
the example partition name. -/
theorem C7_witness :
    lookCtr exAgg.name (aggRows [exRow1, exRow2]) =
      lookCtr exAgg.name (aggRows [exRow2, exRow1]) :=
  C7_aggregation_order_invariant.1 [exRow1, exRow2] [exRow2, exRow1]
    (List.Perm.swap exRow2 exRow1 []) exAgg.name

/-- Claim C6 counterexample: the row `inv 1/1/1/5 2/2/2/9 5 t s n` violates
both the node-counter and the CPU-counter invariant, yet the parser accepts it
and it contributes an aggregate. -/
theorem C6_counterexample :
    parseLine lineInv = .ok rowInv ∧
    rowInv.allocated_nodes + rowInv.idle_nodes + rowInv.other_nodes ≠ rowInv.total_nodes ∧
    rowInv.allocated_cpus + rowInv.idle_cpus + rowInv.other_cpus ≠ rowInv.total_cpus ∧
    get_detailed_partition_info [hdrLine, lineInv] = .ok [aggInv] := by decide

/-- Claim C3 counterexample: a report whose only non-header row is the spec's
canonical malformed row (ratio `3/1/0`, three parts) parses to zero usable
rows, and the pipeline returns an empty success, not an error of any kind. -/
theorem C3_counterexample :
    get_detailed_partition_info [hdrLine, lineBad3] = .ok [] := by decide

/-- Claim C2 counterexample: a row whose ratio field splits into four parts
with the non-integer part `x` does not merely get skipped — it fails the whole
batch with the generic exception return, even though a later well-formed row
was available. -/
theorem C2_counterexample :
    parseLine lineGoodC2 = .ok rowGoodC2 ∧
    get_detailed_partition_info [hdrLine, lineBadInt, lineGoodC2] =
      .error .exn := by decide

/-- Claim C1 counterexample: with threshold 1, the partition `a100x` (class
a100, 40 GB per unit) whose two nodes are all in the `other` state is still
shown, although its total available capacity per the claimed formula
`perUnitMemory * max(0, total - allocated - other)` is 0, below the threshold. -/
theorem C1_counterexample :
    gpuSections 1 [cexC1] = [(40, [cexC1])] ∧
    40 * available_nodes cexC1 < 1 := by decide

/-- Claim C6 (amended): the parser applies no state-counter invariant check —
every line with seven fields whose ratio fields split into four integer parts
each parses to a row carrying exactly those integers, whatever their values
(in particular when allocated+idle+other differs from total). -/
theorem C6_parser_has_no_invariant_check
    (line p0 p1 p2 p3 p4 p5 p6 n0 n1 n2 n3 c0 c1 c2 c3 : Str)
    (a1 i1 o1 t1 a2 i2 o2 t2 dn : Int)
    (hw : splitWs line = [p0, p1, p2, p3, p4, p5, p6])
    (hn : splitSlash p1 = [n0, n1, n2, n3])
    (hc : splitSlash p2 = [c0, c1, c2, c3])
    (h0 : pyInt n0 = some a1) (h1 : pyInt n1 = some i1)
    (h2 : pyInt n2 = some o1) (h3 : pyInt n3 = some t1)
    (h4 : pyInt c0 = some a2) (h5 : pyInt c1 = some i2)
    (h6 : pyInt c2 = some o2) (h7 : pyInt c3 = some t2)
    (h8 : pyInt p3 = some dn) :
    parseLine line = .ok
      { name := p0.filter fun ch => ch ≠ '*'
        allocated_nodes := a1, idle_nodes := i1, other_nodes := o1, total_nodes := t1
        allocated_cpus := a2, idle_cpus := i2, other_cpus := o2, total_cpus := t2
        nodes_count := dn, timelimit := p4, state := p5
        nodelist := List.intercalate [' '] [p6] } := by
  rw [parseLine, hw]
  unfold parseToks
  simp only [hn, hc, h0, h1, h2, h3, h4, h5, h6, h7, h8]

/-- Witness for C6 (amended): instantiating at the invariant-violating line
`inv 1/1/1/5 2/2/2/9 5 t s n` yields acceptance. -/
theorem C6_witness : parseLine lineInv = RowResult.ok rowInv := by
  have h := C6_parser_has_no_invariant_check lineInv
    (['i', 'n', 'v']) (['1', '/', '1', '/', '1', '/', '5'])
    (['2', '/', '2', '/', '2', '/', '9'])
    (['5']) (['t']) (['s']) (['n'])
    (['1']) (['1']) (['1']) (['5']) (['2']) (['2']) (['2']) (['9'])
    1 1 1 5 2 2 2 9 5
    (by decide) (by decide) (by decide) (by decide) (by decide) (by decide)
    (by decide) (by decide) (by decide) (by decide) (by decide) (by decide)
  rw [h]
  decide

/-- Claim C3 (amended): a report whose non-header lines raise nothing is
processed into exactly the rows that parsed successfully; in particular when
every non-header line is skipped as malformed the pipeline returns an empty
success — there is no MalformedReport escalation for zero usable rows. -/
theorem C3_zero_usable_rows_not_error (hdr : Str) (ls : List Str)
    (hne : ls ≠ []) (hnoerr : ∀ l ∈ ls, parseLine l ≠ .err) :
    get_detailed_partition_info (hdr :: ls) = .ok (aggRows (okRows ls)) ∧
    ((∀ l ∈ ls, parseLine l = .skip) →
      get_detailed_partition_info (hdr :: ls) = .ok []) := by
  have hlen : ¬ (hdr :: ls).length < 2 := by
    cases ls with
    | nil => exact absurd rfl hne
    | cons a as => simp
  constructor
  · rw [get_detailed_partition_info, if_neg hlen]
    simp only [List.tail_cons]
    rw [processRows_eq_okRows ls [] hnoerr]
    rfl
  · intro hskip
    have hok : okRows ls = [] := by
      rw [okRows, List.filterMap_eq_nil_iff]
      intro l hl
      rw [hskip l hl]
    rw [get_detailed_partition_info, if_neg hlen]
    simp only [List.tail_cons]
    rw [processRows_eq_okRows ls [] hnoerr, hok]
    rfl

/-- Witness for C3 (amended): the all-malformed report of `C3_counterexample`
indeed yields the empty success through the amended statement. -/
theorem C3_witness : get_detailed_partition_info [hdrLine, lineBad3] = .ok [] :=
  (C3_zero_usable_rows_not_error hdrLine [lineBad3] (by decide)
    (by decide)).2 (by decide)

/-- Claim C2 (amended): the header line is always skipped unconditionally; a
row with fewer than seven fields, or whose node ratio does not split into
exactly four parts, or whose node ratio parses but whose CPU ratio does not
split into exactly four parts, is skipped; a skipped row lets processing
continue with the remaining rows, while a row that raises (a four-part ratio
with a non-integer part) aborts the whole batch. -/
theorem C2_malformed_row_handling :
    (∀ (hdr hdr2 : Str) (rest : List Str),
      get_detailed_partition_info (hdr :: rest) =
        get_detailed_partition_info (hdr2 :: rest)) ∧
    (∀ line : Str, (splitWs line).length < 7 → parseLine line = .skip) ∧
    (∀ (line p0 nr : Str) (rest : List Str), splitWs line = p0 :: nr :: rest →
      (splitSlash nr).length ≠ 4 → parseLine line = .skip) ∧
    (∀ (line p0 nr cr : Str) (rest : List Str) (n0 n1 n2 n3 : Str) (a b c d : Int),
      splitWs line = p0 :: nr :: cr :: rest →
      splitSlash nr = [n0, n1, n2, n3] →
      pyInt n0 = some a → pyInt n1 = some b → pyInt n2 = some c → pyInt n3 = some d →
      (splitSlash cr).length ≠ 4 → parseLine line = .skip) ∧
    (∀ (l : Str) (ls : List Str) (m : List PartitionAgg),
      parseLine l = .skip → processRows (l :: ls) m = processRows ls m) ∧
    (∀ (l : Str) (ls : List Str) (m : List PartitionAgg),
      parseLine l = .err → processRows (l :: ls) m = none) := by
  refine ⟨?_, ?_, ?_, ?_, ?_, ?_⟩
  · intro hdr hdr2 rest
    rw [get_detailed_partition_info, get_detailed_partition_info]
    simp only [List.length_cons, List.tail_cons]
  · intro line h
    rw [parseLine]
    unfold parseToks
    split
    · rename_i q0 q1 q2 q3 q4 q5 q6 restTail heq
      rw [heq] at h
      simp only [List.length_cons] at h
      omega
    · rfl
  · intro line p0 nr rest hsp hne
    rw [parseLine, hsp]
    unfold parseToks
    split
    · rename_i q0 q1 q2 q3 q4 q5 q6 restTail heq
      injection heq with e0 heq
      injection heq with e1 heq
      subst e1
      split
      · rename_i m0 m1 m2 m3 heq2
        rw [heq2] at hne
        simp at hne
      · rfl
    · rfl
  · intro line p0 nr cr rest n0 n1 n2 n3 a b c d hsp hn h0 h1 h2 h3 hne
    rw [parseLine, hsp]
    unfold parseToks
    split
    · rename_i q0 q1 q2 q3 q4 q5 q6 restTail heq
      injection heq with e0 heq
      injection heq with e1 heq
      injection heq with e2 heq
      subst e1
      subst e2
      split
      · rename_i m0 m1 m2 m3 heq2
        rw [hn] at heq2
        injection heq2 with f0 heq2
        injection heq2 with f1 heq2
        injection heq2 with f2 heq2
        injection heq2 with f3 heq2
        subst f0
        subst f1
        subst f2
        subst f3
        simp only [h0, h1, h2, h3]
        split
        · rename_i k0 k1 k2 k3 heq3
          rw [heq3] at hne
          simp at hne
        · rfl
      · rfl
    · rfl
  · intro l ls m h
    rw [processRows, h]
  · intro l ls m h
    rw [processRows, h]

/-- Witness for C2 (amended): the spec's canonical malformed row (node ratio
`3/1/0`, three parts) is skipped by the parser. -/
theorem C2_witness : parseLine lineBad3 = RowResult.skip :=
  C2_malformed_row_handling.2.2.1 lineBad3 (['q', '2'])
    (['3', '/', '1', '/', '0'])
    ([['1', '/', '1', '/', '1', '/', '3'], ['3'], ['t'], ['s'], ['n']])
    (by decide) (by decide)

theorem find?_first {β : Type} (p : β → Bool) (l : List β) (x : β) :
    l.find? p = some x ↔
      ∃ pre suf, l = pre ++ x :: suf ∧ p x = true ∧ ∀ y ∈ pre, p y = false := by
  induction l with
  | nil => simp [List.find?]
  | cons a as ih =>
    cases hpa : p a
    · rw [List.find?_cons_of_neg _ (by simp [hpa]), ih]
      constructor
      · rintro ⟨pre, suf, rfl, hx, hpre⟩
        refine ⟨a :: pre, suf, rfl, hx, ?_⟩
        intro y hy
        rcases List.mem_cons.mp hy with rfl | hy2
        · exact hpa
        · exact hpre y hy2
      · rintro ⟨pre, suf, heq, hx, hpre⟩
        cases pre with
        | nil =>
          simp only [List.nil_append] at heq
          injection heq with h1 h2
          subst h1
          rw [hx] at hpa
          exact absurd hpa (by simp)
        | cons b pre =>
          injection heq with h1 h2
          subst h1
          exact ⟨pre, suf, h2, hx, fun y hy => hpre y (List.mem_cons_of_mem _ hy)⟩
    · rw [List.find?_cons_of_pos _ (by simp [hpa])]
      constructor
      · intro h
        injection h with h
        subst h
        exact ⟨[], as, rfl, hpa, by simp⟩
      · rintro ⟨pre, suf, heq, hx, hpre⟩
        cases pre with
        | nil =>
          simp only [List.nil_append] at heq
          injection heq with h1 h2
          subst h1
          rfl
        | cons b pre =>
          injection heq with h1 h2
          subst h1
          have hb := hpre a (List.mem_cons_self a pre)
          rw [hb] at hpa
          exact absurd hpa (by simp)

/-- Claim C4: capacity inference case-folds the name and returns the per-unit
memory of the first catalog entry, in declared order, whose fragment is a
substring of the folded name (none matching gives no accelerator); it is a
plain total function, and `l40s_nova` matches the fragment `l40s`. -/
theorem C4_infer_first_match :
    infer_gpu_memory ['l', '4', '0', 's', '_', 'n', 'o', 'v', 'a'] = some 48 ∧
    (∀ (name : Str) (v : Int), infer_gpu_memory name = some v ↔
      ∃ pre e suf, GPU_MEMORY = pre ++ e :: suf ∧
        containsSub e.1 (name.map Char.toLower) = true ∧ e.2 = v ∧
        ∀ e2 ∈ pre, containsSub e2.1 (name.map Char.toLower) = false) ∧
    (∀ name : Str, infer_gpu_memory name = none ↔
      ∀ e ∈ GPU_MEMORY, containsSub e.1 (name.map Char.toLower) = false) := by
  refine ⟨by decide, ?_, ?_⟩
  · intro name v
    rw [infer_gpu_memory]
    simp only [Option.map_eq_some']
    constructor
    · rintro ⟨e, hfind, hv⟩
      rcases (find?_first _ _ _).mp hfind with ⟨pre, suf, heq, hp, hpre⟩
      exact ⟨pre, e, suf, heq, hp, hv, hpre⟩
    · rintro ⟨pre, e, suf, heq, hp, hv, hpre⟩
      exact ⟨e, (find?_first _ _ _).mpr ⟨pre, suf, heq, hp, hpre⟩, hv⟩
  · intro name
    rw [infer_gpu_memory]
    simp only [Option.map_eq_none']
    rw [List.find?_eq_none]
    simp

/-- Witness for C4: the first-match characterization instantiated at
`l40s_nova` and 48 GB. -/
theorem C4_witness :
    ∃ pre e suf, GPU_MEMORY = pre ++ e :: suf ∧
      containsSub e.1
        ((['l', '4', '0', 's', '_', 'n', 'o', 'v', 'a'] : Str).map Char.toLower) = true ∧
      e.2 = 48 ∧
      ∀ e2 ∈ pre,
        containsSub e2.1
          ((['l', '4', '0', 's', '_', 'n', 'o', 'v', 'a'] : Str).map Char.toLower) = false :=
  (C4_infer_first_match.2.1 (['l', '4', '0', 's', '_', 'n', 'o', 'v', 'a']) 48).mp
    (by decide)

theorem listStarts_trans {a b s : Str} (h1 : listStarts a b = true)
    (h2 : listStarts b s = true) : listStarts a s = true := by
  induction a generalizing b s with
  | nil => rfl
  | cons x xs ih =>
    cases b with
    | nil => exact absurd h1 (by simp [listStarts])
    | cons y ys =>
      cases s with
      | nil => exact absurd h2 (by simp [listStarts])
      | cons z zs =>
        rw [listStarts, Bool.and_eq_true] at h1 h2 ⊢
        rcases h1 with ⟨hxy, h1⟩
        rcases h2 with ⟨hyz, h2⟩
        refine ⟨?_, ih h1 h2⟩
        simp only [decide_eq_true_eq] at hxy hyz ⊢
        exact hxy.trans hyz

theorem containsSub_of_starts {a s : Str} (h : listStarts a s = true) :
    containsSub a s = true := by
  cases s with
  | nil => exact h
  | cons c cs => simp [containsSub, h]

theorem containsSub_of_starts_of_sub {a b s : Str} (h1 : containsSub a b = true)
    (h2 : listStarts b s = true) : containsSub a s = true := by
  induction b generalizing s with
  | nil =>
    have ha : listStarts a [] = true := h1
    exact containsSub_of_starts (listStarts_trans ha (by cases s <;> rfl))
  | cons y ys ih =>
    cases s with
    | nil => exact absurd h2 (by simp [listStarts])
    | cons z zs =>
      rw [listStarts, Bool.and_eq_true] at h2
      rcases h2 with ⟨hyz, h2⟩
      rw [containsSub, Bool.or_eq_true] at h1
      rcases h1 with h1 | h1
      · have : listStarts a (z :: zs) = true := by
          apply listStarts_trans h1
          rw [listStarts, Bool.and_eq_true]
          exact ⟨hyz, h2⟩
        exact containsSub_of_starts this
      · have := ih h1 h2
        rw [containsSub, Bool.or_eq_true]
        exact Or.inr this

theorem containsSub_trans {a b s : Str} (h1 : containsSub a b = true)
    (h2 : containsSub b s = true) : containsSub a s = true := by
  induction s with
  | nil => exact containsSub_of_starts_of_sub h1 h2
  | cons c cs ih =>
    rw [containsSub, Bool.or_eq_true] at h2
    rcases h2 with h2 | h2
    · exact containsSub_of_starts_of_sub h1 h2
    · rw [containsSub, Bool.or_eq_true]
      exact Or.inr (ih h2)

theorem find?_drop_entry {β : Type} (p : β → Bool) (xs : List β) (y : β)
    (ys : List β) (h : p y = true → ∃ x ∈ xs, p x = true) :
    List.find? p (xs ++ y :: ys) = List.find? p (xs ++ ys) := by
  induction xs with
  | nil =>
    have hy : p y = false := by
      cases hpy : p y
      · rfl
      · rcases h hpy with ⟨x, hx, _⟩
        exact absurd hx (by simp)
    simp only [List.nil_append]
    rw [List.find?_cons_of_neg _ (by simp [hy])]
  | cons x xs ih =>
    cases hpx : p x
    · simp only [List.cons_append]
      rw [List.find?_cons_of_neg _ (by simp [hpx]),
        List.find?_cons_of_neg _ (by simp [hpx])]
      refine ih ?_
      intro hpy
      rcases h hpy with ⟨x2, hx2, hp2⟩
      rcases List.mem_cons.mp hx2 with rfl | hx3
      · exact absurd hp2 (by simp [hpx])
      · exact ⟨x2, hx3, hp2⟩
    · simp only [List.cons_append]
      rw [List.find?_cons_of_pos _ (by simp [hpx]),
        List.find?_cons_of_pos _ (by simp [hpx])]

/-- Claim C9: the catalog entries `l40sx` and `rtx2080ti` can never be the
first match — `l40s` precedes `l40sx` and `2080ti` precedes `rtx2080ti`, and
each earlier fragment occurs inside the later one — so the lookup equals the
same first-match lookup over the catalog with those two entries removed. -/
theorem C9_pruned_catalog_equiv (name : Str) :
    infer_gpu_memory name = infer_gpu_memory_pruned name := by
  rw [infer_gpu_memory, infer_gpu_memory_pruned]
  have hsplit1 : GPU_MEMORY =
      [(['a', '1', '0', '0'], (40 : Int)),
       (['h', '2', '0', '0'], 141),
       (['v', '1', '0', '0'], 16),
       (['a', '5', '0', '0', '0'], 24),
       (['a', '5', '5', '0', '0'], 24),
       (['l', '4', '0', 's'], 48)] ++
      (['l', '4', '0', 's', 'x'], (48 : Int)) ::
      [(['2', '0', '8', '0', 't', 'i'], 11),
       (['r', 't', 'x', '2', '0', '8', '0', 't', 'i'], 11),
       (['a', '6', '0', '0', '0'], 48),
       (['a', '4', '0'], 48),
       (['r', 't', 'x', '3', '0', '9', '0'], 24),
       (['r', 't', 'x', '4', '0', '9', '0'], 24),
       (['t', 'i', 't', 'a', 'n'], 24)] := by rfl
  have hsplit2 :
      ([(['a', '1', '0', '0'], (40 : Int)),
        (['h', '2', '0', '0'], 141),
        (['v', '1', '0', '0'], 16),
        (['a', '5', '0', '0', '0'], 24),
        (['a', '5', '5', '0', '0'], 24),
        (['l', '4', '0', 's'], 48)] ++
       [(['2', '0', '8', '0', 't', 'i'], (11 : Int)),
        (['r', 't', 'x', '2', '0', '8', '0', 't', 'i'], 11),
        (['a', '6', '0', '0', '0'], 48),
        (['a', '4', '0'], 48),
        (['r', 't', 'x', '3', '0', '9', '0'], 24),
        (['r', 't', 'x', '4', '0', '9', '0'], 24),
        (['t', 'i', 't', 'a', 'n'], 24)]) =
      [(['a', '1', '0', '0'], (40 : Int)),
       (['h', '2', '0', '0'], 141),
       (['v', '1', '0', '0'], 16),
       (['a', '5', '0', '0', '0'], 24),
       (['a', '5', '5', '0', '0'], 24),
       (['l', '4', '0', 's'], 48),
       (['2', '0', '8', '0', 't', 'i'], 11)] ++
      (['r', 't', 'x', '2', '0', '8', '0', 't', 'i'], (11 : Int)) ::
      [(['a', '6', '0', '0', '0'], (48 : Int)),
       (['a', '4', '0'], 48),
       (['r', 't', 'x', '3', '0', '9', '0'], 24),
       (['r', 't', 'x', '4', '0', '9', '0'], 24),
       (['t', 'i', 't', 'a', 'n'], 24)] := by rfl
  rw [hsplit1, find?_drop_entry, hsplit2, find?_drop_entry]
  · rfl
  · intro hmatch
    refine ⟨(['2', '0', '8', '0', 't', 'i'], 11), by simp, ?_⟩
    exact containsSub_trans (by decide) hmatch
  · intro hmatch
    refine ⟨(['l', '4', '0', 's'], 48), by simp, ?_⟩
    exact containsSub_trans (by decide) hmatch

theorem filterMap_if_eq_map_filter {β : Type} (l : List Int)
    (c : Int → Bool) (f : Int → β) :
    (l.filterMap fun m => if c m then none else some (f m)) =
      (l.filter fun m => !c m).map f := by
  induction l with
  | nil => rfl
  | cons x xs ih =>
    cases hx : c x <;>
      simp [List.filterMap_cons, List.filter_cons, hx, ih]

theorem gpuSections_eq_map (min_gpu_memory : Nat) (parts : List PartitionAgg) :
    gpuSections min_gpu_memory parts =
      ((sortedKeysDesc parts).filter fun m =>
        !(filteredGroup min_gpu_memory m parts).isEmpty).map
        fun m => (m, filteredGroup min_gpu_memory m parts) := by
  rw [gpuSections, filterMap_if_eq_map_filter]

theorem mem_gpuSections (min_gpu_memory : Nat) (parts : List PartitionAgg)
    (g : Int) (l : List PartitionAgg) :
    (g, l) ∈ gpuSections min_gpu_memory parts ↔
      g ∈ sortedKeysDesc parts ∧ l = filteredGroup min_gpu_memory g parts ∧
      l ≠ [] := by
  rw [gpuSections_eq_map, List.mem_map]
  constructor
  · rintro ⟨m, hm, heq⟩
    rcases List.mem_filter.mp hm with ⟨hmk, hne⟩
    rw [Prod.mk.injEq] at heq
    rcases heq with ⟨rfl, rfl⟩
    refine ⟨hmk, rfl, ?_⟩
    simpa using hne
  · rintro ⟨hg, rfl, hne⟩
    refine ⟨g, List.mem_filter.mpr ⟨hg, ?_⟩, rfl⟩
    simpa using hne

/-- Claim C1 (amended): within each capacity group, exactly the partitions
whose `gpu_mem * (total_nodes - allocated_nodes)` reaches the positive
threshold are shown (the filter ignores other-state nodes and applies no zero
clamp); a class is never dropped wholesale for its per-unit value, and a group
with no qualifying partition is omitted entirely (no shown group is empty). -/
theorem C1_filter_per_partition (min_gpu_memory : Nat) (parts : List PartitionAgg) :
    (∀ ml ∈ gpuSections min_gpu_memory parts, ml.2 ≠ []) ∧
    (∀ (p : PartitionAgg) (m : Int), p ∈ parts → infer_gpu_memory p.name = some m →
      ((∃ l, (m, l) ∈ gpuSections min_gpu_memory parts ∧ p ∈ l) ↔
        (min_gpu_memory = 0 ∨
          (min_gpu_memory : Int) ≤ m * (p.total_nodes - p.allocated_nodes)))) := by
  constructor
  · rintro ⟨g, l⟩ hml
    exact ((mem_gpuSections _ _ _ _).mp hml).2.2
  · intro p m hp hm
    constructor
    · rintro ⟨l, hml, hpl⟩
      rcases (mem_gpuSections _ _ _ _).mp hml with ⟨hk, rfl, hne⟩
      rcases List.mem_filter.mp hpl with ⟨hmem, hpred⟩
      simpa using hpred
    · intro hq
      have hkey : m ∈ sortedKeysDesc parts := by
        rw [sortedKeysDesc, (perm_sortDescBy _ _).mem_iff, gpuKeys, List.mem_dedup]
        exact List.mem_filterMap.mpr ⟨p, hp, hm⟩
      have hbucket : p ∈ gpuBucket m parts :=
        List.mem_filter.mpr ⟨hp, by simp [hm]⟩
      have hsorted : p ∈ sortDescBy sortKey (gpuBucket m parts) :=
        (perm_sortDescBy _ _).mem_iff.mpr hbucket
      have hfl : p ∈ filteredGroup min_gpu_memory m parts := by
        rw [filteredGroup, minFilter]
        refine List.mem_filter.mpr ⟨hsorted, ?_⟩
        simpa using hq
      have hne : filteredGroup min_gpu_memory m parts ≠ [] := by
        intro hnil
        rw [hnil] at hfl
        exact absurd hfl (by simp)
      exact ⟨filteredGroup min_gpu_memory m parts,
        (mem_gpuSections _ _ _ _).mpr ⟨hkey, rfl, hne⟩, hfl⟩

/-- Witness for C1 (amended): with threshold 48, the partition with two free
24 GB units (capacity 48) is shown inside the 24 GB group. -/
theorem C1_witness :
    ∃ l, ((24 : Int), l) ∈ gpuSections 48 [wA5000] ∧ wA5000 ∈ l :=
  ((C1_filter_per_partition 48 [wA5000]).2 wA5000 24 (by decide)
    (by decide)).mpr (by decide)

theorem sortedKeysDesc_pairwise (parts : List PartitionAgg) :
    (sortedKeysDesc parts).Pairwise fun a b => b < a := by
  have hpw := pairwise_sortDescBy (fun m => ((m : Int), (0 : Int))) (gpuKeys parts)
  have hnd : (sortDescBy (fun m => ((m : Int), (0 : Int))) (gpuKeys parts)).Nodup :=
    ((perm_sortDescBy _ _).nodup_iff).mpr (List.nodup_dedup _)
  rw [sortedKeysDesc]
  refine (hpw.and hnd).imp ?_
  rintro a b ⟨hge, hne⟩
  rcases hge with hlt | ⟨heq, _⟩
  · exact hlt
  · exact absurd heq hne

theorem gpuSections_keys_pairwise (min_gpu_memory : Nat) (parts : List PartitionAgg) :
    (gpuSections min_gpu_memory parts).Pairwise fun a b => b.1 < a.1 := by
  rw [gpuSections_eq_map, List.pairwise_map]
  exact (sortedKeysDesc_pairwise parts).filter _

theorem renderSections_cpu_last (min_gpu_memory : Nat) (parts : List PartitionAgg) :
    ∀ s ∈ (renderSections min_gpu_memory parts).dropLast, isCpuSection s = false := by
  intro s hs
  rw [renderSections] at hs
  by_cases hc : (cpuBucket parts).isEmpty
  · rw [if_pos hc, List.append_nil] at hs
    have hs2 : s ∈ (gpuSections min_gpu_memory parts).map
        fun ml => RSection.gpu ml.1 ml.2 :=
      (List.dropLast_sublist _).subset hs
    rcases List.mem_map.mp hs2 with ⟨ml, _, rfl⟩
    rfl
  · rw [if_neg hc, List.dropLast_concat] at hs
    rcases List.mem_map.mp hs with ⟨ml, _, rfl⟩
    rfl

/-- Claim C5: within each shown capacity group partitions are in descending
order of the composite key (availability score, idle nodes); the in-group sort
is a stable permutation (rows of equal key keep their aggregation order); the
availability score equals the derived available-unit count on non-negative
counters; group keys descend strictly (highest per-unit memory first); and the
compute-only bucket, internally sorted by the same key, is rendered last. -/
theorem C5_ranking_order (min_gpu_memory : Nat) (parts : List PartitionAgg) :
    ((gpuSections min_gpu_memory parts).Pairwise fun a b => b.1 < a.1) ∧
    (∀ ml ∈ gpuSections min_gpu_memory parts,
      ml.2.Pairwise fun a b => lexGe (sortKey a) (sortKey b)) ∧
    (∀ l : List PartitionAgg, (sortDescBy sortKey l).Perm l) ∧
    (∀ (l : List PartitionAgg) (c : Int × Int),
      ((sortDescBy sortKey l).filter fun p => decide (sortKey p = c)) =
        l.filter fun p => decide (sortKey p = c)) ∧
    (∀ p : PartitionAgg, 0 ≤ p.allocated_nodes → 0 ≤ p.other_nodes →
      0 ≤ p.total_nodes → availability_score p = available_nodes p) ∧
    ((sortDescBy sortKey (cpuBucket parts)).Pairwise fun a b =>
      lexGe (sortKey a) (sortKey b)) ∧
    (∀ s ∈ (renderSections min_gpu_memory parts).dropLast,
      isCpuSection s = false) := by
  refine ⟨gpuSections_keys_pairwise min_gpu_memory parts, ?_, perm_sortDescBy sortKey,
    filter_sortDescBy sortKey, ?_, pairwise_sortDescBy sortKey (cpuBucket parts),
    renderSections_cpu_last min_gpu_memory parts⟩
  · rintro ⟨g, l⟩ hml
    rcases (mem_gpuSections _ _ _ _).mp hml with ⟨hk, rfl, hne⟩
    rw [filteredGroup, minFilter]
    exact (pairwise_sortDescBy sortKey (gpuBucket g parts)).filter _
  · intro p ha ho ht
    rw [availability_score]
    by_cases h : 0 < p.total_nodes
    · rw [if_pos h]
    · rw [if_neg h, available_nodes]
      have ht0 : p.total_nodes = 0 := le_antisymm (not_lt.mp h) ht
      rw [max_eq_left (by omega)]

/-- Witness for C5: instantiated at a concrete aggregate list, the single
shown 24 GB group's content satisfies the in-group descending-key order. -/
theorem C5_witness :
    ((24 : Int), [wA5000]).2.Pairwise
      (fun a b => lexGe (sortKey a) (sortKey b)) :=
  (C5_ranking_order 0 [wA5000, wCpu]).2.1 ((24 : Int), [wA5000]) (by decide)

theorem minFilter_pred_mono {m1 m2 : Nat} (h : m1 ≤ m2) (g : Int)
    (p : PartitionAgg)
    (hp : (decide (m2 = 0) ||
      decide ((m2 : Int) ≤ g * (p.total_nodes - p.allocated_nodes))) = true) :
    (decide (m1 = 0) ||
      decide ((m1 : Int) ≤ g * (p.total_nodes - p.allocated_nodes))) = true := by
  simp only [Bool.or_eq_true, decide_eq_true_eq] at hp ⊢
  rcases hp with h2 | h2
  · left; omega
  · by_cases hz : m1 = 0
    · left; exact hz
    · right
      exact le_trans (by exact_mod_cast h) h2

theorem sum_length_filter_isEmpty (fg : Int → List PartitionAgg) (l : List Int) :
    (((l.filter fun m => !(fg m).isEmpty).map fun m => (fg m).length).sum) =
      ((l.map fun m => (fg m).length).sum) := by
  induction l with
  | nil => rfl
  | cons x xs ih =>
    by_cases hx : (fg x).isEmpty
    · have hlen : (fg x).length = 0 := by
        rw [List.isEmpty_iff] at hx
        simp [hx]
      simp [List.filter_cons, hx, hlen, ih]
    · simp only [List.filter_cons]
      rw [if_pos (by simpa using hx)]
      simp [ih]

theorem shownCount_eq (min_gpu_memory : Nat) (parts : List PartitionAgg) :
    shownCount min_gpu_memory parts =
      ((sortedKeysDesc parts).map fun m =>
        (filteredGroup min_gpu_memory m parts).length).sum := by
  rw [shownCount, gpuSections_eq_map, List.map_map]
  exact sum_length_filter_isEmpty _ _

/-- Claim C8: filtering is monotonic in the threshold — with thresholds
m1 ≤ m2, any partition shown in a capacity group under m2 is also shown in
that group under m1, and the total number of shown partitions never increases
when the threshold is raised. -/
theorem C8_threshold_monotone (parts : List PartitionAgg) (m1 m2 : Nat)
    (h : m1 ≤ m2) :
    (∀ (p : PartitionAgg) (g : Int) (l : List PartitionAgg),
      (g, l) ∈ gpuSections m2 parts → p ∈ l →
      ∃ l2, (g, l2) ∈ gpuSections m1 parts ∧ p ∈ l2) ∧
    shownCount m2 parts ≤ shownCount m1 parts := by
  have hsub : ∀ g, List.Sublist (filteredGroup m2 g parts)
      (filteredGroup m1 g parts) := by
    intro g
    exact List.monotone_filter_right _ fun p hp => minFilter_pred_mono h g p hp
  constructor
  · intro p g l hml hpl
    rcases (mem_gpuSections _ _ _ _).mp hml with ⟨hk, rfl, hne⟩
    have hp1 : p ∈ filteredGroup m1 g parts := (hsub g).subset hpl
    have hne1 : filteredGroup m1 g parts ≠ [] := by
      intro hnil
      rw [hnil] at hp1
      exact absurd hp1 (by simp)
    exact ⟨filteredGroup m1 g parts,
      (mem_gpuSections _ _ _ _).mpr ⟨hk, rfl, hne1⟩, hp1⟩
  · rw [shownCount_eq, shownCount_eq]
    refine List.sum_le_sum ?_
    intro m hm
    exact (hsub m).length_le

/-- Witness for C8: the partition shown under threshold 48 is also shown under
threshold 24. -/
theorem C8_witness :
    ∃ l2, ((24 : Int), l2) ∈ gpuSections 24 [wA5000] ∧ wA5000 ∈ l2 :=
  (C8_threshold_monotone [wA5000] 24 48 (by decide)).1 wA5000 24 [wA5000]
    (by decide) (by decide)
